import Mathlib

/-!
Verification development for the KPI-AI-Agent repository.

The AHP engine in `src/ahp_module.py` delegates matrix construction,
priority-vector extraction and consistency measurement to the third-party
`ahpy` library; the specification re-describes those algorithms explicitly
(§4.1–§4.5).  The definitions below embed the repository code where it
exists (`AHPHierarchy`, `train_predictive_model`, `load_data`) and model
the `ahpy` collaborator from the specification's explicit algorithms.
All real-valued quantities are embedded as rationals (`ℚ`), so floating
tolerances in the claims become exact statements.
-/

namespace KPI

/-- Error kinds of §7 of the specification.  The repository surfaces the
first two as `AHPConfigError` (with the consistency ratio embedded in the
message string); `hierarchyMismatch` covers both a per-criterion
alternatives block missing from the configuration and alternative sets
that differ across criteria. -/
inductive AHPError where
  | invalidInput
  | inconsistentJudgments (cr : ℚ)
  | hierarchyMismatch
deriving DecidableEq, Repr

/-- One step of the element registry: append each side of the judgment
pair unless it has been seen already. -/
def registerStep (acc : List String) (jd : (String × String) × ℚ) :
    List String :=
  let acc1 := if jd.1.1 ∈ acc then acc else acc ++ [jd.1.1]
  if jd.1.2 ∈ acc1 then acc1 else acc1 ++ [jd.1.2]

/-- Modelled from the spec (§4.1 Element Registry), the part of
`ahpy.Compare` that is not in the repository: the ordered, de-duplicated
list of element names referenced by either side of any judgment pair,
in first-seen order. -/
def registerElements (js : List ((String × String) × ℚ)) : List String :=
  js.foldl registerStep []

/-- Point update of a matrix represented as a total function on indices. -/
def updEntry (m : ℕ → ℕ → ℚ) (i j : ℕ) (r : ℚ) : ℕ → ℕ → ℚ :=
  fun a b => if a = i ∧ b = j then r else m a b

/-- Modelled from the spec (§4.2 step 2): one judgment `(A,B) → r` sets
`M[idx A][idx B] := r` and then `M[idx B][idx A] := 1/r`. -/
def applyJudgment (elems : List String) (m : ℕ → ℕ → ℚ)
    (jd : (String × String) × ℚ) : ℕ → ℕ → ℚ :=
  updEntry (updEntry m (elems.indexOf jd.1.1) (elems.indexOf jd.1.2) jd.2)
    (elems.indexOf jd.1.2) (elems.indexOf jd.1.1) jd.2⁻¹

/-- Modelled from the spec (§4.2 step 1): the starting matrix is all ones
(diagonal and unsupplied pairs alike). -/
def initMatrix : ℕ → ℕ → ℚ := fun _ _ => 1

/-- Modelled from the spec (§4.2 Comparison Matrix Builder, not in the
repository): fold the judgments over the all-ones matrix; a later judgment
on the same pair overwrites an earlier one (last-write-wins). -/
def buildMatrixFn (elems : List String) (js : List ((String × String) × ℚ)) :
    ℕ → ℕ → ℚ :=
  js.foldl (applyJudgment elems) initMatrix

/-- Matrix–vector product restricted to the first `n` indices. -/
def matVecFn (m : ℕ → ℕ → ℚ) (n : ℕ) (v : ℕ → ℚ) : ℕ → ℚ :=
  fun i => ((List.range n).map (fun j => m i j * v j)).sum

/-- Sum of the first `n` components of a vector. -/
def sumVec (n : ℕ) (v : ℕ → ℚ) : ℚ := ((List.range n).map v).sum

/-- Renormalisation by the sum norm (spec §4.3). -/
def normalizeVec (n : ℕ) (v : ℕ → ℚ) : ℕ → ℚ :=
  fun i => v i / sumVec n v

/-- Uniform starting vector of the power iteration (spec §4.3). -/
def uniformVec (n : ℕ) : ℕ → ℚ := fun _ => 1 / n

/-- Modelled from the spec (§4.3 Priority Vector Solver, not in the
repository): power iteration — repeatedly multiply by the matrix and
renormalise by the sum norm, bounded by an iteration count (`fuel`). -/
def powerIterate (m : ℕ → ℕ → ℚ) (n : ℕ) : ℕ → (ℕ → ℚ) → (ℕ → ℚ)
  | 0, v => v
  | fuel + 1, v => powerIterate m n fuel (normalizeVec n (matVecFn m n v))

/-- Modelled from the spec (§4.3): the converged vector, normalised so its
entries sum to 1 — the PriorityVector. -/
def solvePriorityVector (m : ℕ → ℕ → ℚ) (n fuel : ℕ) : ℕ → ℚ :=
  normalizeVec n (powerIterate m n fuel (uniformVec n))

/-- Modelled from the spec (§4.3): `lambda_max` as the Rayleigh quotient
`(M·w)_i / w_i` averaged across components. -/
def lambdaMaxOf (m : ℕ → ℕ → ℚ) (n : ℕ) (w : ℕ → ℚ) : ℚ :=
  (((List.range n).map (fun i => matVecFn m n w i / w i)).sum) / n

/-- Modelled from the spec (§4.4): the fixed Saaty random-index table
(`random_index="saaty"` in the repository), `RI(1) = RI(2) = 0`, entries
documented for n = 1..15, and 0 outside the table's extent. -/
def RI : ℕ → ℚ
  | 3 => 58 / 100
  | 4 => 90 / 100
  | 5 => 112 / 100
  | 6 => 124 / 100
  | 7 => 132 / 100
  | 8 => 141 / 100
  | 9 => 145 / 100
  | 10 => 149 / 100
  | 11 => 151 / 100
  | 12 => 148 / 100
  | 13 => 156 / 100
  | 14 => 157 / 100
  | 15 => 159 / 100
  | _ => 0

/-- Modelled from the spec (§4.4): `CI = (lambda_max − n) / (n − 1)` for
`n ≥ 2`, and `CI = 0` for `n < 2`. -/
def consistencyIndex (lam : ℚ) (n : ℕ) : ℚ :=
  if 2 ≤ n then (lam - n) / ((n : ℚ) - 1) else 0

/-- Modelled from the spec (§4.4): `CR = CI / RI(n)`, treated as 0
whenever `RI(n) = 0`. -/
def consistencyRatioOf (lam : ℚ) (n : ℕ) : ℚ :=
  if RI n = 0 then 0 else consistencyIndex lam n / RI n

/-- ConsistencyResult record of the spec's data model (§3). -/
structure ConsistencyResult where
  lambda_max : ℚ
  CI : ℚ
  CR : ℚ
  n : ℕ
deriving DecidableEq, Repr

/-- Modelled from the spec (§4.4 Consistency Checker, not in the
repository): package `lambda_max`, CI and CR for an `n`-element matrix. -/
def checkConsistency (lam : ℚ) (n : ℕ) : ConsistencyResult :=
  { lambda_max := lam
    CI := consistencyIndex lam n
    CR := consistencyRatioOf lam n
    n := n }

/-- Embedding of `ahpy.Compare` as used by `ahp_module.py`: one comparison
layer with its element order, built matrix, priority vector and
consistency ratio. -/
structure Compare where
  name : String
  elements : List String
  matrix : ℕ → ℕ → ℚ
  priorityVector : List (String × ℚ)
  lambda_max : ℚ
  consistency_ratio : ℚ

/-- Modelled from the spec (§4.1–§4.4, the `ahpy.Compare` constructor,
not in the repository): validate the judgments (`InvalidInput` on a
non-positive ratio, a self pair — a malformed judgment pair — or fewer
than 2 distinct elements, §4.1/§4.2/§7), build the reciprocal matrix,
solve the priority vector with `fuel` power-iteration steps, and compute
`lambda_max` and the consistency ratio. -/
def compareOfJudgments (name : String) (js : List ((String × String) × ℚ))
    (fuel : ℕ) : Except AHPError Compare :=
  if ∀ jd ∈ js, 0 < jd.2 ∧ jd.1.1 ≠ jd.1.2 then
    let elems := registerElements js
    if 2 ≤ elems.length then
      let n := elems.length
      let m := buildMatrixFn elems js
      let w := solvePriorityVector m n fuel
      let lam := lambdaMaxOf m n w
      .ok
        { name := name
          elements := elems
          matrix := m
          priorityVector := elems.zip ((List.range n).map w)
          lambda_max := lam
          consistency_ratio := consistencyRatioOf lam n }
    else .error .invalidInput
  else .error .invalidInput

/-! ### The hierarchy (`AHPHierarchy` of `ahp_module.py`) -/

/-- The AHP configuration structure loaded from the JSON file:
`config["criteria"]` (a name and its comparisons) and
`config["alternatives"]` (per criterion, a name and its comparisons). -/
structure AHPConfig where
  criteriaName : String
  criteriaComparisons : List ((String × String) × ℚ)
  alternatives : List (String × List ((String × String) × ℚ))

/-- Embedding of `AHPHierarchy._build_criteria`: build the criteria
comparison layer and reject it with `AHPConfigError` — the
`InconsistentJudgments` signal carrying the consistency-ratio value —
when `consistency_ratio > 0.1`. -/
def buildCriteria (cfg : AHPConfig) (fuel : ℕ) : Except AHPError Compare :=
  match compareOfJudgments cfg.criteriaName cfg.criteriaComparisons fuel with
  | .error e => .error e
  | .ok c =>
    if c.consistency_ratio > 1 / 10 then
      .error (.inconsistentJudgments c.consistency_ratio)
    else .ok c

/-- Embedding of `AHPHierarchy._build_alternatives`: for each criterion
block, build its alternatives comparison and reject it — again reporting
the consistency-ratio value — when `consistency_ratio > 0.1`. -/
def buildAlternatives (fuel : ℕ) :
    List (String × List ((String × String) × ℚ)) →
    Except AHPError (List (String × Compare))
  | [] => .ok []
  | (cn, js) :: rest =>
    match compareOfJudgments ("Alternatives_for_" ++ cn) js fuel with
    | .error e => .error e
    | .ok cmp =>
      if cmp.consistency_ratio > 1 / 10 then
        .error (.inconsistentJudgments cmp.consistency_ratio)
      else
        match buildAlternatives fuel rest with
        | .error e => .error e
        | .ok tail => .ok ((cn, cmp) :: tail)

/-- Two element lists name the identical set. -/
def sameSet (l₁ l₂ : List String) : Bool :=
  l₁.all (· ∈ l₂) && l₂.all (· ∈ l₁)

/-- The linked two-level hierarchy (`ahpy.Hierarchy` as used by
`_build_hierarchical_structure`): the criteria layer plus, per criterion
element in order, its alternatives comparison. -/
structure Hierarchy where
  criteria : Compare
  children : List (String × Compare)

/-- `self.alternatives[criterion]` for each criterion element, in
element order; a criterion whose alternatives block is missing fails the
build (`HierarchyMismatch`, §7: "a required criterion/alternatives block
is missing"). -/
def resolveChildren (alts : List (String × Compare)) :
    List String → Except AHPError (List (String × Compare))
  | [] => .ok []
  | c :: rest =>
    match alts.lookup c with
    | none => .error .hierarchyMismatch
    | some cmp =>
      match resolveChildren alts rest with
      | .error e => .error e
      | .ok tail => .ok ((c, cmp) :: tail)

/-- Embedding of `AHPHierarchy._build_hierarchical_structure`.  The
linking of each criterion's alternatives comparison is in the
repository; the precondition check is modelled from the spec (§4.5):
every per-criterion alternatives comparison must be over the identical
alternative set, otherwise the build fails with `HierarchyMismatch`. -/
def buildHierStructure (criteria : Compare) (alts : List (String × Compare)) :
    Except AHPError Hierarchy :=
  match resolveChildren alts criteria.elements with
  | .error e => .error e
  | .ok children =>
    match children.head? with
    | none => .ok { criteria := criteria, children := children }
    | some p0 =>
      if children.all (fun p => sameSet p.2.elements p0.2.elements) then
        .ok { criteria := criteria, children := children }
      else .error .hierarchyMismatch

/-- Embedding of `AHPHierarchy.__init__`: load order is criteria, then
alternatives, then the hierarchical structure; any failure aborts the
constructor, so no `AHPHierarchy` object exists past a failed check. -/
structure AHPHierarchy where
  criteria : Compare
  alternatives : List (String × Compare)
  root : Hierarchy

/-- The `AHPHierarchy` constructor as an explicit pipeline. -/
def mkAHPHierarchy (cfg : AHPConfig) (fuel : ℕ) :
    Except AHPError AHPHierarchy :=
  match buildCriteria cfg fuel with
  | .error e => .error e
  | .ok crit =>
    match buildAlternatives fuel cfg.alternatives with
    | .error e => .error e
    | .ok alts =>
      match buildHierStructure crit alts with
      | .error e => .error e
      | .ok root =>
        .ok { criteria := crit, alternatives := alts, root := root }

/-- Weight lookup in a priority vector (0 for an unknown name). -/
def lookupW (pv : List (String × ℚ)) (x : String) : ℚ :=
  (pv.lookup x).getD 0

/-- The alternative names the synthesized vector ranges over: the
element set shared by every child layer (taken from the first child). -/
def altNamesOf (h : Hierarchy) : List String :=
  match h.children.head? with
  | none => []
  | some p0 => p0.2.elements

/-- Modelled from the spec (§4.5 Hierarchy Synthesizer,
`ahpy.Hierarchy.get_priority_vector`, not in the repository): the global
weight of each alternative is `global(a) = Σ_c w_c(c) * w_a(a|c)`. -/
def Hierarchy.get_priority_vector (h : Hierarchy) : List (String × ℚ) :=
  (altNamesOf h).map
    (fun a =>
      (a,
        (h.children.map
          (fun p => lookupW h.criteria.priorityVector p.1 *
            lookupW p.2.priorityVector a)).sum))

/-- Embedding of `AHPHierarchy.get_final_weights`: delegate to the
hierarchy's global priority vector. -/
def AHPHierarchy.get_final_weights (h : AHPHierarchy) : List (String × ℚ) :=
  h.root.get_priority_vector

end KPI

namespace KPI

/-! ### Data-frame collaborators (`predictive.py`, `data_pipeline.py`) -/

/-- Error kinds raised by the data-frame collaborators; the repository
raises `ValueError` with distinct messages. -/
inductive DFError where
  | emptyFrame
  | missingColumns
  | targetNotFound
  | noValidData
  | columnNotFound
deriving DecidableEq, Repr

/-- A row of a pandas DataFrame: named cells, a missing value is `none`. -/
abbrev Row := List (String × Option ℚ)

/-- Cell access: a column absent from the row counts as missing. -/
def getCell (r : Row) (c : String) : Option ℚ :=
  (r.lookup c).getD none

/-- Row-oriented DataFrame embedding for `predictive.py`. -/
structure DataFrame where
  columns : List String
  rows : List Row
deriving DecidableEq, Repr

/-- `dropna(subset=features + [target])` keeps a row iff every feature
cell and the target cell is present. -/
def rowComplete (features : List String) (target : String) (r : Row) : Bool :=
  (features ++ [target]).all (fun c => (getCell r c).isSome)

/-- Embedding of `train_predictive_model` (`src/predictive.py`) up to its
frame effect: the validation guards, then the in-place
`df.dropna(subset=features + [target], inplace=True)`.  The returned
frame is the caller's `df` object after the call; the sklearn training,
metric and feature-importance pipeline below the dropna is third-party
glue with no effect on `df` and is not modelled. -/
def train_predictive_model (df : DataFrame) (features : List String)
    (target : String) : Except DFError DataFrame :=
  if df.rows.isEmpty then .error .emptyFrame
  else if ¬ (∀ c ∈ features, c ∈ df.columns) then .error .missingColumns
  else if target ∉ df.columns then .error .targetNotFound
  else
    let kept := df.rows.filter (rowComplete features target)
    if kept.isEmpty then .error .noValidData
    else .ok { df with rows := kept }

/-- A column of a pandas DataFrame, missing values as `none`. -/
abbrev Column := List (Option ℚ)

/-- Column-oriented DataFrame embedding for `data_pipeline.py`. -/
abbrev ColFrame := List (String × Column)

/-- `fillna(method='ffill')`: replace each missing value with the last
preceding non-missing value (`carry`), if any. -/
def ffillFrom (carry : Option ℚ) : Column → Column
  | [] => []
  | none :: xs => carry :: ffillFrom carry xs
  | some v :: xs => some v :: ffillFrom (some v) xs

/-- Forward fill of one column. -/
def ffill (l : Column) : Column := ffillFrom none l

/-- `bfill()`: replace each missing value with the next following
non-missing value, if any. -/
def bfill : Column → Column
  | [] => []
  | some v :: xs => some v :: bfill xs
  | none :: xs => (bfill xs).headD none :: bfill xs

/-- Overwrite column `c` of the frame (`df[col] = ...`). -/
def setCol (df : ColFrame) (c : String) (l : Column) : ColFrame :=
  df.map (fun p => if p.1 = c then (p.1, l) else p)

/-- The `for col in fillna_columns` loop of `load_data`: a listed column
absent from the frame raises `ValueError`; otherwise the column is
forward-filled and then backward-filled in place. -/
def fillColumns : ColFrame → List String → Except DFError ColFrame
  | df, [] => .ok df
  | df, c :: rest =>
    match df.lookup c with
    | none => .error .columnNotFound
    | some l => fillColumns (setCol df c (bfill (ffill l))) rest

/-- Embedding of `load_data` (`src/data_pipeline.py`) from the point the
CSV has been read and the date column parsed (the `pd.read_csv` call and
datetime validation are I/O against the file system and are not
modelled): when `fillna_columns` is falsy (absent or the empty list) the
frame is returned unchanged, otherwise each listed column is filled. -/
def load_data (df : ColFrame) (fillna_columns : Option (List String)) :
    Except DFError ColFrame :=
  match fillna_columns with
  | none => .ok df
  | some [] => .ok df
  | some cols => fillColumns df cols

/-! ### Predicates used by the statements -/

/-- All entries of the matrix are positive. -/
def MatPos (m : ℕ → ℕ → ℚ) : Prop := ∀ a b, 0 < m a b

/-- The matrix is reciprocal: `M[i][j] * M[j][i] = 1` for all `i,j`. -/
def MatRecip (m : ℕ → ℕ → ℚ) : Prop := ∀ a b, m a b * m b a = 1

/-- The matrix has a unit diagonal. -/
def MatDiagOne (m : ℕ → ℕ → ℚ) : Prop := ∀ a, m a a = 1

/-- All components of the vector are positive. -/
def VecPos (v : ℕ → ℚ) : Prop := ∀ i, 0 < v i

/-- Every weight of the priority vector is non-negative. -/
def nonnegPV (pv : List (String × ℚ)) : Prop := ∀ p ∈ pv, 0 ≤ p.2

/-- The weights of the priority vector sum to 1 within `1e-6`. -/
def sumNearOnePV (pv : List (String × ℚ)) : Prop :=
  |(pv.map Prod.snd).sum - 1| ≤ 1 / 1000000

/-- A judgment supplies a ratio for the unordered element pair `{a,b}`. -/
def touchesPair (a b : String) (jd : (String × String) × ℚ) : Prop :=
  (jd.1.1 = a ∧ jd.1.2 = b) ∨ (jd.1.1 = b ∧ jd.1.2 = a)

instance (a b : String) (jd : (String × String) × ℚ) :
    Decidable (touchesPair a b jd) := by
  unfold touchesPair
  infer_instance

/-! ### Concrete inputs used by the witness theorems -/

/-- Extract the success value of an `Except`, with a fallback. -/
def getOkD {ε α : Type} (e : Except ε α) (d : α) : α :=
  match e with
  | .ok x => x
  | .error _ => d

/-- Fallback `Compare` used only by `getOkD`. -/
def defaultCompare : Compare :=
  { name := ""
    elements := []
    matrix := initMatrix
    priorityVector := []
    lambda_max := 0
    consistency_ratio := 0 }

/-- Fallback `Hierarchy` used only by `getOkD`. -/
def defaultHierarchy : Hierarchy :=
  { criteria := defaultCompare, children := [] }

/-- Fallback `AHPHierarchy` used only by `getOkD`. -/
def defaultAHP : AHPHierarchy :=
  { criteria := defaultCompare, alternatives := [], root := defaultHierarchy }

/-- A small valid configuration: two criteria, two alternatives. -/
def cfgEx : AHPConfig :=
  { criteriaName := "Criteria"
    criteriaComparisons := [(("X", "Y"), 2)]
    alternatives :=
      [("X", [(("A", "B"), 3)]), ("Y", [(("A", "B"), (1 : ℚ) / 2)])] }

/-- The hierarchy built from `cfgEx` with no power-iteration steps. -/
def hEx : AHPHierarchy := getOkD (mkAHPHierarchy cfgEx 0) defaultAHP

/-- The criteria layer built from `cfgEx`. -/
def critEx : Compare := getOkD (buildCriteria cfgEx 0) defaultCompare

/-- A comparison layer built from a single judgment. -/
def cmpEx : Compare :=
  getOkD (compareOfJudgments ("c") [(("X", "Y"), 2)] 1) defaultCompare

/-- The criteria comparison of `cfgEx`, before the consistency gate. -/
def critCmpEx : Compare :=
  getOkD (compareOfJudgments cfgEx.criteriaName cfgEx.criteriaComparisons 0)
    defaultCompare

/-- The criteria layer of the spec's synthesis example:
weights `{X: 0.6, Y: 0.4}`. -/
def critXY : Compare :=
  { name := "Criteria"
    elements := ["X", "Y"]
    matrix := initMatrix
    priorityVector := [("X", 6 / 10), ("Y", 4 / 10)]
    lambda_max := 2
    consistency_ratio := 0 }

/-- Alternatives under X in the spec's synthesis example:
`{A: 0.7, B: 0.3}`. -/
def cmpXEx : Compare :=
  { name := "Alternatives_for_X"
    elements := ["A", "B"]
    matrix := initMatrix
    priorityVector := [("A", 7 / 10), ("B", 3 / 10)]
    lambda_max := 2
    consistency_ratio := 0 }

/-- Alternatives under Y in the spec's synthesis example:
`{A: 0.2, B: 0.8}`. -/
def cmpYEx : Compare :=
  { name := "Alternatives_for_Y"
    elements := ["A", "B"]
    matrix := initMatrix
    priorityVector := [("A", 2 / 10), ("B", 8 / 10)]
    lambda_max := 2
    consistency_ratio := 0 }

/-- The two-criteria hierarchy of the spec's synthesis example. -/
def hierEx : Hierarchy :=
  { criteria := critXY, children := [("X", cmpXEx), ("Y", cmpYEx)] }

/-- A configuration whose two criteria carry alternatives over different
alternative sets: `{A,B}` under X but `{A,C}` under Y. -/
def cfgBad : AHPConfig :=
  { criteriaName := "Criteria"
    criteriaComparisons := [(("X", "Y"), 2)]
    alternatives :=
      [("X", [(("A", "B"), 1)]), ("Y", [(("A", "C"), 1)])] }

/-- The criteria layer of `cfgBad`. -/
def critBad : Compare := getOkD (buildCriteria cfgBad 0) defaultCompare

/-- The alternatives layers of `cfgBad`. -/
def altsBad : List (String × Compare) :=
  getOkD (buildAlternatives 0 cfgBad.alternatives) []

/-- The alternatives comparison under X in `cfgBad`. -/
def cmpBadX : Compare :=
  getOkD (compareOfJudgments ("Alternatives_for_X") [(("A", "B"), 1)] 0)
    defaultCompare

/-- The alternatives comparison under Y in `cfgBad`. -/
def cmpBadY : Compare :=
  getOkD (compareOfJudgments ("Alternatives_for_Y") [(("A", "C"), 1)] 0)
    defaultCompare

/-- A complete data-frame row. -/
def rowC9 : Row := [("f", some 1), ("t", some 2)]

/-- A row whose feature cell is missing. -/
def rowC9b : Row := [("f", none), ("t", some 3)]

/-- A frame with no missing values in the feature or target column. -/
def dfC9 : DataFrame := { columns := ["f", "t"], rows := [rowC9] }

/-- A frame with one complete and one incomplete row. -/
def dfC9b : DataFrame := { columns := ["f", "t"], rows := [rowC9, rowC9b] }

/-- `dfC9b` after the in-place dropna. -/
def dfC9b' : DataFrame := { columns := ["f", "t"], rows := [rowC9] }

/-- A column-oriented frame for the `load_data` witness: column `a` has a
leading value and a trailing gap, column `b` is entirely missing. -/
def dfC10 : ColFrame := [("a", [some 1, none]), ("b", [none])]

/-- `dfC10` after forward/backward filling column `a`. -/
def dfC10' : ColFrame := [("a", [some 1, some 1]), ("b", [none])]

end KPI

namespace KPI

/-! ## Helper lemmas about list sums -/

theorem list_sum_nonneg {l : List ℚ} (h : ∀ x ∈ l, 0 ≤ x) : 0 ≤ l.sum := by
  induction l with
  | nil => simp
  | cons a t ih =>
    simp only [List.sum_cons]
    have ha := h a (by simp)
    have ht := ih (fun x hx => h x (by simp [hx]))
    linarith

theorem list_sum_pos {l : List ℚ} (h : ∀ x ∈ l, 0 < x) (hne : l ≠ []) :
    0 < l.sum := by
  cases l with
  | nil => exact absurd rfl hne
  | cons a t =>
    simp only [List.sum_cons]
    have ha := h a (by simp)
    have ht : 0 ≤ t.sum := list_sum_nonneg (fun x hx => le_of_lt (h x (by simp [hx])))
    linarith

theorem sum_map_div {α : Type} (l : List α) (f : α → ℚ) (s : ℚ) :
    (l.map (fun x => f x / s)).sum = (l.map f).sum / s := by
  induction l with
  | nil => simp
  | cons a t ih => simp [ih, add_div]

theorem sum_map_add {α : Type} (l : List α) (f g : α → ℚ) :
    (l.map (fun x => f x + g x)).sum = (l.map f).sum + (l.map g).sum := by
  induction l with
  | nil => simp
  | cons a t ih =>
    simp only [List.map_cons, List.sum_cons, ih]
    ring

theorem sum_comm_list {α γ : Type} (A : List α) (C : List γ) (g : α → γ → ℚ) :
    (A.map (fun a => (C.map (g a)).sum)).sum
      = (C.map (fun c => (A.map (fun a => g a c)).sum)).sum := by
  induction A with
  | nil => simp
  | cons a t ih =>
    simp only [List.map_cons, List.sum_cons, ih, ← sum_map_add]

/-! ## Element registry -/

theorem nodup_append_singleton {l : List String} {x : String}
    (h : l.Nodup) (hx : x ∉ l) : (l ++ [x]).Nodup := by
  simp [List.nodup_append, h, hx]

theorem registerStep_nodup {acc : List String}
    (h : acc.Nodup) (jd : (String × String) × ℚ) :
    (registerStep acc jd).Nodup := by
  simp only [registerStep]
  split_ifs with h1 h2 h2
  · exact h
  · exact nodup_append_singleton h h2
  · exact nodup_append_singleton h h1
  · exact nodup_append_singleton (nodup_append_singleton h h1) h2

theorem mem_registerStep_of_mem {acc : List String}
    {a : String} (ha : a ∈ acc) (jd : (String × String) × ℚ) :
    a ∈ registerStep acc jd := by
  simp only [registerStep]
  split_ifs <;> simp [ha]

theorem registerStep_mem_fst (acc : List String)
    (jd : (String × String) × ℚ) : jd.1.1 ∈ registerStep acc jd := by
  simp only [registerStep]
  split_ifs with h1 h2 h2 <;> simp [h1]

theorem registerStep_mem_snd (acc : List String)
    (jd : (String × String) × ℚ) : jd.1.2 ∈ registerStep acc jd := by
  simp only [registerStep]
  split_ifs with h1 h2 h2 <;> simp_all

theorem foldl_registerStep_nodup :
    ∀ (js : List ((String × String) × ℚ)) (acc : List String),
      acc.Nodup → (js.foldl registerStep acc).Nodup
  | [], _, h => h
  | jd :: rest, acc, h =>
    foldl_registerStep_nodup rest _ (registerStep_nodup h jd)

theorem registerElements_nodup (js : List ((String × String) × ℚ)) :
    (registerElements js).Nodup :=
  foldl_registerStep_nodup js [] (by simp)

theorem foldl_registerStep_mem :
    ∀ (js : List ((String × String) × ℚ)) (acc : List String) {a : String},
      a ∈ acc → a ∈ js.foldl registerStep acc
  | [], _, _, ha => ha
  | jd :: rest, acc, _, ha =>
    foldl_registerStep_mem rest _ (mem_registerStep_of_mem ha jd)

theorem mem_foldl_registerStep :
    ∀ (js : List ((String × String) × ℚ)) (acc : List String)
      {jd : (String × String) × ℚ}, jd ∈ js →
      jd.1.1 ∈ js.foldl registerStep acc ∧ jd.1.2 ∈ js.foldl registerStep acc
  | jd0 :: rest, acc, jd, hjd => by
    rcases List.mem_cons.1 hjd with h | h
    · subst h
      exact ⟨foldl_registerStep_mem rest _ (registerStep_mem_fst acc jd),
        foldl_registerStep_mem rest _ (registerStep_mem_snd acc jd)⟩
    · exact mem_foldl_registerStep rest _ h

theorem mem_registerElements {js : List ((String × String) × ℚ)}
    {jd : (String × String) × ℚ} (hjd : jd ∈ js) :
    jd.1.1 ∈ registerElements js ∧ jd.1.2 ∈ registerElements js :=
  mem_foldl_registerStep js [] hjd

theorem indexOf_ne_of_mem_ne {l : List String} {a b : String}
    (ha : a ∈ l) (hb : b ∈ l) (h : a ≠ b) :
    l.indexOf a ≠ l.indexOf b :=
  fun he => h ((List.indexOf_inj ha hb).1 he)

/-! ## Matrix builder invariants -/

theorem applyJudgment_inv {elems : List String} {m : ℕ → ℕ → ℚ}
    {jd : (String × String) × ℚ} (hpos : MatPos m) (hrec : MatRecip m)
    (hdiag : MatDiagOne m) (hr : 0 < jd.2)
    (hne : elems.indexOf jd.1.1 ≠ elems.indexOf jd.1.2) :
    MatPos (applyJudgment elems m jd) ∧ MatRecip (applyJudgment elems m jd) ∧
      MatDiagOne (applyJudgment elems m jd) := by
  set iA := elems.indexOf jd.1.1 with hiA
  set iB := elems.indexOf jd.1.2 with hiB
  have hr' : jd.2 ≠ 0 := ne_of_gt hr
  refine ⟨?_, ?_, ?_⟩
  · intro a b
    simp only [applyJudgment, updEntry, ← hiA, ← hiB]
    split_ifs with h1 h2
    · exact inv_pos.2 hr
    · exact hr
    · exact hpos a b
  · intro a b
    simp only [applyJudgment, updEntry, ← hiA, ← hiB]
    by_cases h1 : a = iB ∧ b = iA
    · obtain ⟨rfl, rfl⟩ := h1
      rw [if_pos ⟨rfl, rfl⟩, if_neg (fun hc => hne hc.1),
        if_pos ⟨rfl, rfl⟩]
      exact inv_mul_cancel₀ hr'
    · by_cases h2 : a = iA ∧ b = iB
      · obtain ⟨rfl, rfl⟩ := h2
        rw [if_neg (fun hc => hne hc.1), if_pos ⟨rfl, rfl⟩,
          if_pos ⟨rfl, rfl⟩]
        exact mul_inv_cancel₀ hr'
      · have h1' : ¬(b = iB ∧ a = iA) := fun hc => h2 ⟨hc.2, hc.1⟩
        have h2' : ¬(b = iA ∧ a = iB) := fun hc => h1 ⟨hc.2, hc.1⟩
        rw [if_neg h1, if_neg h2, if_neg h1', if_neg h2']
        exact hrec a b
  · intro a
    simp only [applyJudgment, updEntry, ← hiA, ← hiB]
    rw [if_neg (fun hc => hne (hc.2.symm.trans hc.1)),
      if_neg (fun hc => hne (hc.1.symm.trans hc.2))]
    exact hdiag a

theorem foldl_applyJudgment_inv {elems : List String} :
    ∀ (js : List ((String × String) × ℚ)) (m : ℕ → ℕ → ℚ),
      (∀ jd ∈ js, 0 < jd.2 ∧ elems.indexOf jd.1.1 ≠ elems.indexOf jd.1.2) →
      MatPos m → MatRecip m → MatDiagOne m →
      MatPos (js.foldl (applyJudgment elems) m) ∧
        MatRecip (js.foldl (applyJudgment elems) m) ∧
        MatDiagOne (js.foldl (applyJudgment elems) m)
  | [], m, _, hpos, hrec, hdiag => ⟨hpos, hrec, hdiag⟩
  | jd :: rest, m, hjs, hpos, hrec, hdiag => by
    have hjd := hjs jd (by simp)
    have step := applyJudgment_inv hpos hrec hdiag hjd.1 hjd.2
    exact foldl_applyJudgment_inv rest _
      (fun x hx => hjs x (by simp [hx])) step.1 step.2.1 step.2.2

theorem buildMatrixFn_inv {elems : List String}
    {js : List ((String × String) × ℚ)}
    (hjs : ∀ jd ∈ js, 0 < jd.2 ∧ elems.indexOf jd.1.1 ≠ elems.indexOf jd.1.2) :
    MatPos (buildMatrixFn elems js) ∧ MatRecip (buildMatrixFn elems js) ∧
      MatDiagOne (buildMatrixFn elems js) :=
  foldl_applyJudgment_inv js initMatrix hjs
    (fun _ _ => one_pos) (fun _ _ => mul_one 1) (fun _ => rfl)

/-! ## Priority vector solver -/

theorem range_map_ne_nil {n : ℕ} (hn : 0 < n) (f : ℕ → ℚ) :
    (List.range n).map f ≠ [] := by
  apply List.length_pos.1
  simpa using hn

theorem matVec_pos {m : ℕ → ℕ → ℚ} {n : ℕ} {v : ℕ → ℚ}
    (hm : MatPos m) (hv : VecPos v) (hn : 0 < n) :
    VecPos (matVecFn m n v) := by
  intro i
  apply list_sum_pos _ (range_map_ne_nil hn _)
  intro x hx
  obtain ⟨j, _, rfl⟩ := List.mem_map.1 hx
  exact mul_pos (hm i j) (hv j)

theorem sumVec_pos {n : ℕ} {v : ℕ → ℚ} (hv : VecPos v) (hn : 0 < n) :
    0 < sumVec n v := by
  apply list_sum_pos _ (range_map_ne_nil hn _)
  intro x hx
  obtain ⟨j, _, rfl⟩ := List.mem_map.1 hx
  exact hv j

theorem normalizeVec_pos {n : ℕ} {v : ℕ → ℚ} (hv : VecPos v) (hn : 0 < n) :
    VecPos (normalizeVec n v) :=
  fun i => div_pos (hv i) (sumVec_pos hv hn)

theorem sumVec_normalize {n : ℕ} {v : ℕ → ℚ} (h : sumVec n v ≠ 0) :
    sumVec n (normalizeVec n v) = 1 := by
  unfold sumVec normalizeVec
  rw [sum_map_div]
  exact div_self (by simpa [sumVec] using h)

theorem uniformVec_pos {n : ℕ} (hn : 0 < n) : VecPos (uniformVec n) := by
  intro i
  unfold uniformVec
  exact div_pos one_pos (by exact_mod_cast hn)

theorem powerIterate_pos {m : ℕ → ℕ → ℚ} {n : ℕ}
    (hm : MatPos m) (hn : 0 < n) :
    ∀ (fuel : ℕ) (v : ℕ → ℚ), VecPos v → VecPos (powerIterate m n fuel v)
  | 0, _, hv => hv
  | fuel + 1, v, hv =>
    powerIterate_pos hm hn fuel _
      (normalizeVec_pos (matVec_pos hm hv hn) hn)

theorem solve_pos {m : ℕ → ℕ → ℚ} {n fuel : ℕ}
    (hm : MatPos m) (hn : 0 < n) :
    VecPos (solvePriorityVector m n fuel) :=
  normalizeVec_pos (powerIterate_pos hm hn fuel _ (uniformVec_pos hn)) hn

theorem solve_sum_one {m : ℕ → ℕ → ℚ} {n fuel : ℕ}
    (hm : MatPos m) (hn : 0 < n) :
    sumVec n (solvePriorityVector m n fuel) = 1 :=
  sumVec_normalize
    (ne_of_gt (sumVec_pos (powerIterate_pos hm hn fuel _ (uniformVec_pos hn)) hn))

/-! ## Unpacking the `Compare` constructor -/

theorem compareOfJudgments_ok {name : String}
    {js : List ((String × String) × ℚ)} {fuel : ℕ} {c : Compare}
    (h : compareOfJudgments name js fuel = .ok c) :
    (∀ jd ∈ js, 0 < jd.2 ∧ jd.1.1 ≠ jd.1.2) ∧
    c.elements = registerElements js ∧
    2 ≤ (registerElements js).length ∧
    c.matrix = buildMatrixFn (registerElements js) js ∧
    c.priorityVector = (registerElements js).zip
      ((List.range (registerElements js).length).map
        (solvePriorityVector (buildMatrixFn (registerElements js) js)
          (registerElements js).length fuel)) ∧
    c.consistency_ratio
      = consistencyRatioOf c.lambda_max (registerElements js).length := by
  simp only [compareOfJudgments] at h
  split_ifs at h with h1 h2
  · injection h with h'
    subst h'
    exact ⟨h1, rfl, h2, rfl, rfl, rfl⟩
  all_goals simp at h

theorem compare_ok_props {name : String}
    {js : List ((String × String) × ℚ)} {fuel : ℕ} {c : Compare}
    (h : compareOfJudgments name js fuel = .ok c) :
    c.elements.Nodup ∧ 2 ≤ c.elements.length ∧
    MatPos c.matrix ∧ MatRecip c.matrix ∧ MatDiagOne c.matrix ∧
    c.priorityVector.map Prod.fst = c.elements ∧
    (∀ p ∈ c.priorityVector, 0 < p.2) ∧
    (c.priorityVector.map Prod.snd).sum = 1 := by
  obtain ⟨hval, hel, hlen, hmat, hpv, -⟩ := compareOfJudgments_ok h
  have hidx : ∀ jd ∈ js, 0 < jd.2 ∧
      (registerElements js).indexOf jd.1.1
        ≠ (registerElements js).indexOf jd.1.2 := by
    intro jd hjd
    obtain ⟨hposr, hner⟩ := hval jd hjd
    obtain ⟨hm1, hm2⟩ := mem_registerElements hjd
    exact ⟨hposr, indexOf_ne_of_mem_ne hm1 hm2 hner⟩
  obtain ⟨hP, hR, hD⟩ := buildMatrixFn_inv hidx
  have hn : 0 < (registerElements js).length :=
    lt_of_lt_of_le (by norm_num) hlen
  have hlenmap : ((List.range (registerElements js).length).map
      (solvePriorityVector (buildMatrixFn (registerElements js) js)
        (registerElements js).length fuel)).length
      = (registerElements js).length := by
    simp
  refine ⟨?_, ?_, ?_, ?_, ?_, ?_, ?_, ?_⟩
  · rw [hel]; exact registerElements_nodup js
  · rw [hel]; exact hlen
  · rw [hmat]; exact hP
  · rw [hmat]; exact hR
  · rw [hmat]; exact hD
  · rw [hpv, hel, List.map_fst_zip _ _ (le_of_eq hlenmap.symm)]
  · intro p hp
    rw [hpv] at hp
    have h2 := (List.of_mem_zip hp).2
    obtain ⟨j, -, hj⟩ := List.mem_map.1 h2
    rw [← hj]
    exact solve_pos hP hn j
  · rw [hpv, List.map_snd_zip _ _ (le_of_eq hlenmap)]
    exact solve_sum_one hP hn

/-! ## Lookup lemmas -/

theorem lookup_map_pair {ks : List String} {a : String} (f : String → ℚ)
    (ha : a ∈ ks) :
    (ks.map (fun k => (k, f k))).lookup a = some (f a) := by
  induction ks with
  | nil => cases ha
  | cons k t ih =>
    by_cases hk : a = k
    · subst hk
      simp [List.lookup]
    · have ha' : a ∈ t := by
        rcases List.mem_cons.1 ha with h | h
        · exact absurd h hk
        · exact h
      have hbeq : (a == k) = false := beq_eq_false_iff_ne.2 hk
      simpa [List.lookup, hbeq] using ih ha'

theorem lookupW_map_pair {ks : List String} {a : String} (f : String → ℚ)
    (ha : a ∈ ks) : lookupW (ks.map (fun k => (k, f k))) a = f a := by
  unfold lookupW
  rw [lookup_map_pair f ha]
  rfl

theorem lookupW_cons_self {k : String} {v : ℚ} {rest : List (String × ℚ)} :
    lookupW ((k, v) :: rest) k = v := by
  simp [lookupW, List.lookup]

theorem lookupW_cons_ne {a k : String} {v : ℚ} {rest : List (String × ℚ)}
    (h : a ≠ k) : lookupW ((k, v) :: rest) a = lookupW rest a := by
  have hbeq : (a == k) = false := beq_eq_false_iff_ne.2 h
  simp [lookupW, List.lookup, hbeq]

theorem sum_lookup_keys :
    ∀ (pv : List (String × ℚ)), (pv.map Prod.fst).Nodup →
      ((pv.map Prod.fst).map (lookupW pv)).sum = (pv.map Prod.snd).sum
  | [], _ => by simp
  | (k, v) :: rest, hnd => by
    simp only [List.map_cons, List.sum_cons]
    have hk : k ∉ rest.map Prod.fst := (List.nodup_cons.1 hnd).1
    have h2 : (rest.map Prod.fst).map (lookupW ((k, v) :: rest))
        = (rest.map Prod.fst).map (lookupW rest) := by
      apply List.map_congr_left
      intro a ha
      exact lookupW_cons_ne (fun he => hk (he ▸ ha))
    rw [lookupW_cons_self, h2,
      sum_lookup_keys rest (List.nodup_cons.1 hnd).2]

theorem mem_of_lookup_some {β : Type} :
    ∀ {l : List (String × β)} {k : String} {v : β},
      l.lookup k = some v → (k, v) ∈ l
  | [], _, _, h => by simp [List.lookup] at h
  | (k', v') :: t, k, v, h => by
    by_cases hk : k = k'
    · subst hk
      simp [List.lookup] at h
      simp [h]
    · have hbeq : (k == k') = false := beq_eq_false_iff_ne.2 hk
      simp only [List.lookup, hbeq] at h
      exact List.mem_cons_of_mem _ (mem_of_lookup_some h)

theorem lookupW_nonneg {pv : List (String × ℚ)}
    (h : ∀ p ∈ pv, 0 ≤ p.2) (x : String) : 0 ≤ lookupW pv x := by
  unfold lookupW
  cases hl : pv.lookup x with
  | none => simp
  | some v =>
    have hmem : (x, v) ∈ pv := mem_of_lookup_some hl
    simpa using h (x, v) hmem

theorem sameSet_iff {l₁ l₂ : List String} :
    sameSet l₁ l₂ = true ↔ ∀ a, a ∈ l₁ ↔ a ∈ l₂ := by
  simp only [sameSet, Bool.and_eq_true, List.all_eq_true, decide_eq_true_eq]
  constructor
  · rintro ⟨h1, h2⟩ a
    exact ⟨fun ha => h1 a ha, fun ha => h2 a ha⟩
  · intro h
    exact ⟨fun a ha => (h a).1 ha, fun a ha => (h a).2 ha⟩

theorem sum_lookup_perm {pv : List (String × ℚ)} {ks : List String}
    (hkeys : pv.map Prod.fst = ks) (hnd : ks.Nodup)
    {ks' : List String} (hnd' : ks'.Nodup)
    (hss : ∀ a, a ∈ ks' ↔ a ∈ ks) :
    (ks'.map (lookupW pv)).sum = (pv.map Prod.snd).sum := by
  have hperm : List.Perm ks' ks := (List.perm_ext_iff_of_nodup hnd' hnd).2 hss
  rw [(hperm.map (lookupW pv)).sum_eq]
  rw [← hkeys] at hnd ⊢
  exact sum_lookup_keys pv hnd

/-! ## Unpacking the hierarchy build pipeline -/

theorem buildCriteria_ok {cfg : AHPConfig} {fuel : ℕ} {c : Compare}
    (h : buildCriteria cfg fuel = .ok c) :
    compareOfJudgments cfg.criteriaName cfg.criteriaComparisons fuel = .ok c ∧
      c.consistency_ratio ≤ 1 / 10 := by
  unfold buildCriteria at h
  split at h
  · simp at h
  · next c' heq =>
    split at h
    · simp at h
    · next hcr =>
      injection h with h'
      subst h'
      exact ⟨heq, not_lt.1 hcr⟩

theorem buildAlternatives_ok {fuel : ℕ} :
    ∀ {l : List (String × List ((String × String) × ℚ))}
      {alts : List (String × Compare)},
      buildAlternatives fuel l = .ok alts →
      ∀ p ∈ alts, ∃ js,
        compareOfJudgments ("Alternatives_for_" ++ p.1) js fuel = .ok p.2 ∧
          p.2.consistency_ratio ≤ 1 / 10
  | [], alts, h => by
    simp only [buildAlternatives] at h
    injection h with h'
    subst h'
    simp
  | (cn, js0) :: rest, alts, h => by
    simp only [buildAlternatives] at h
    split at h
    · simp at h
    · next cmp heq =>
      split at h
      · simp at h
      · next hcr =>
        split at h
        · simp at h
        · next tail htail =>
          injection h with h'
          subst h'
          intro p hp
          rcases List.mem_cons.1 hp with rfl | hp'
          · exact ⟨js0, heq, not_lt.1 hcr⟩
          · exact buildAlternatives_ok htail p hp'

theorem resolveChildren_ok {alts : List (String × Compare)} :
    ∀ {cs : List String} {children : List (String × Compare)},
      resolveChildren alts cs = .ok children →
      children.map Prod.fst = cs ∧ ∀ p ∈ children, alts.lookup p.1 = some p.2
  | [], children, h => by
    simp only [resolveChildren] at h
    injection h with h'
    subst h'
    simp
  | c :: rest, children, h => by
    simp only [resolveChildren] at h
    split at h
    · simp at h
    · next cmp heq =>
      split at h
      · simp at h
      · next tail htail =>
        injection h with h'
        subst h'
        obtain ⟨ih1, ih2⟩ := resolveChildren_ok htail
        refine ⟨by simp [ih1], ?_⟩
        intro p hp
        rcases List.mem_cons.1 hp with rfl | hp'
        · exact heq
        · exact ih2 p hp'

theorem resolveChildren_missing {alts : List (String × Compare)} :
    ∀ {cs : List String}, (∃ c ∈ cs, alts.lookup c = none) →
      resolveChildren alts cs = .error .hierarchyMismatch
  | [], h => by
    obtain ⟨c, hc, -⟩ := h
    cases hc
  | c :: rest, h => by
    simp only [resolveChildren]
    obtain ⟨c0, hc0, hl0⟩ := h
    rcases List.mem_cons.1 hc0 with rfl | hc0'
    · rw [hl0]
    · cases hl : alts.lookup c with
      | none => rfl
      | some cmp =>
        rw [resolveChildren_missing ⟨c0, hc0', hl0⟩]

theorem buildHierStructure_ok {crit : Compare}
    {alts : List (String × Compare)} {hr : Hierarchy}
    (h : buildHierStructure crit alts = .ok hr) :
    hr.criteria = crit ∧
      resolveChildren alts crit.elements = .ok hr.children ∧
      ∀ p ∈ hr.children, sameSet p.2.elements (altNamesOf hr) = true := by
  unfold buildHierStructure at h
  split at h
  · simp at h
  · next children hres =>
    split at h
    · next hhead =>
      injection h with h'
      subst h'
      refine ⟨rfl, hres, ?_⟩
      intro p hp
      simp [List.head?_eq_none_iff.1 hhead] at hp
    · next p0 hhead =>
      split at h
      · next hall =>
        injection h with h'
        subst h'
        refine ⟨rfl, hres, ?_⟩
        intro p hp
        have := List.all_eq_true.1 hall p hp
        simpa [altNamesOf, hhead] using this
      · simp at h

theorem mkAHPHierarchy_ok {cfg : AHPConfig} {fuel : ℕ} {h' : AHPHierarchy}
    (h : mkAHPHierarchy cfg fuel = .ok h') :
    buildCriteria cfg fuel = .ok h'.criteria ∧
      buildAlternatives fuel cfg.alternatives = .ok h'.alternatives ∧
      buildHierStructure h'.criteria h'.alternatives = .ok h'.root := by
  unfold mkAHPHierarchy at h
  split at h
  · simp at h
  · next crit hcrit =>
    split at h
    · simp at h
    · next alts halts =>
      split at h
      · simp at h
      · next root hroot =>
        injection h with he
        subst he
        exact ⟨hcrit, halts, hroot⟩

/-! ## The synthesized global vector -/

theorem sumNearOne_of_eq {pv : List (String × ℚ)}
    (h : (pv.map Prod.snd).sum = 1) : sumNearOnePV pv := by
  unfold sumNearOnePV
  rw [h]
  norm_num

theorem global_nonneg {h : Hierarchy}
    (hc : ∀ p ∈ h.criteria.priorityVector, 0 ≤ p.2)
    (hch : ∀ p ∈ h.children, ∀ q ∈ p.2.priorityVector, 0 ≤ q.2) :
    nonnegPV h.get_priority_vector := by
  intro p hp
  unfold Hierarchy.get_priority_vector at hp
  obtain ⟨a, _, rfl⟩ := List.mem_map.1 hp
  dsimp only
  apply list_sum_nonneg
  intro x hx
  obtain ⟨q, hq, rfl⟩ := List.mem_map.1 hx
  exact mul_nonneg (lookupW_nonneg hc _) (lookupW_nonneg (hch q hq) _)

theorem global_sum_one {h : Hierarchy}
    (hcv : h.criteria.priorityVector.map Prod.fst = h.criteria.elements)
    (hcs : (h.criteria.priorityVector.map Prod.snd).sum = 1)
    (hcnd : h.criteria.elements.Nodup)
    (hkeys : h.children.map Prod.fst = h.criteria.elements)
    (hne : h.children ≠ [])
    (hch : ∀ p ∈ h.children,
      p.2.priorityVector.map Prod.fst = p.2.elements ∧
        (p.2.priorityVector.map Prod.snd).sum = 1 ∧
        p.2.elements.Nodup ∧
        sameSet p.2.elements (altNamesOf h) = true) :
    (h.get_priority_vector.map Prod.snd).sum = 1 := by
  obtain ⟨p0, rest, hchl⟩ : ∃ p0 rest, h.children = p0 :: rest := by
    cases hc : h.children with
    | nil => exact absurd hc hne
    | cons a t => exact ⟨a, t, rfl⟩
  have hp0 := hch p0 (by rw [hchl]; exact List.mem_cons_self _ _)
  have haltnd : (altNamesOf h).Nodup := by
    have : altNamesOf h = p0.2.elements := by simp [altNamesOf, hchl]
    rw [this]
    exact hp0.2.2.1
  unfold Hierarchy.get_priority_vector
  rw [List.map_map]
  have hcomp : (Prod.snd ∘ fun a => (a,
      (h.children.map (fun p => lookupW h.criteria.priorityVector p.1 *
        lookupW p.2.priorityVector a)).sum))
      = fun a => (h.children.map (fun p => lookupW h.criteria.priorityVector p.1 *
        lookupW p.2.priorityVector a)).sum := rfl
  rw [hcomp, sum_comm_list]
  have hinner : ∀ p ∈ h.children,
      ((altNamesOf h).map (fun a => lookupW h.criteria.priorityVector p.1 *
        lookupW p.2.priorityVector a)).sum
        = lookupW h.criteria.priorityVector p.1 := by
    intro p hp
    obtain ⟨hk, hs, hnd, hss⟩ := hch p hp
    rw [List.sum_map_mul_left,
      sum_lookup_perm hk hnd haltnd (fun a => ((sameSet_iff.1 hss) a).symm),
      hs, mul_one]
  rw [List.map_congr_left hinner]
  have hmm : (h.children.map (fun p => lookupW h.criteria.priorityVector p.1))
      = (h.children.map Prod.fst).map (lookupW h.criteria.priorityVector) := by
    rw [List.map_map]
    rfl
  rw [hmm, hkeys, ← hcv,
    sum_lookup_keys _ (by rw [hcv]; exact hcnd), hcs]

theorem mkAHP_root_props {cfg : AHPConfig} {fuel : ℕ} {hh : AHPHierarchy}
    (h : mkAHPHierarchy cfg fuel = .ok hh) :
    hh.root.criteria = hh.criteria ∧
      hh.root.children.map Prod.fst = hh.criteria.elements ∧
      hh.root.children ≠ [] ∧
      (∀ p ∈ hh.root.children, p ∈ hh.alternatives) ∧
      (∀ p ∈ hh.root.children,
        sameSet p.2.elements (altNamesOf hh.root) = true) := by
  obtain ⟨hcrit, halts, hroot⟩ := mkAHPHierarchy_ok h
  obtain ⟨hcc, -⟩ := buildCriteria_ok hcrit
  obtain ⟨hc1, hres, hsame⟩ := buildHierStructure_ok hroot
  obtain ⟨hkeys, hlook⟩ := resolveChildren_ok hres
  have hlen : 2 ≤ hh.criteria.elements.length := (compare_ok_props hcc).2.1
  refine ⟨hc1, hkeys, ?_, ?_, hsame⟩
  · intro hnil
    rw [hnil] at hkeys
    rw [← hkeys] at hlen
    simp at hlen
  · intro p hp
    exact mem_of_lookup_some (hlook p hp)

/-! ## Further helper lemmas for the matrix builder -/

theorem eq_of_indexOf_eq_mem {l : List String} {x y : String} (hx : x ∈ l)
    (h : l.indexOf x = l.indexOf y) : x = y := by
  by_cases hy : y ∈ l
  · exact (List.indexOf_inj hx hy).1 h
  · exfalso
    have hlt := List.indexOf_lt_length.2 hx
    rw [h] at hlt
    exact hy (List.indexOf_lt_length.1 hlt)

theorem foldl_applyJudgment_untouched {elems : List String} {ia ib : ℕ} :
    ∀ (js : List ((String × String) × ℚ)) (m : ℕ → ℕ → ℚ),
      (∀ jd ∈ js,
        ¬((elems.indexOf jd.1.1 = ia ∧ elems.indexOf jd.1.2 = ib) ∨
          (elems.indexOf jd.1.1 = ib ∧ elems.indexOf jd.1.2 = ia))) →
      (js.foldl (applyJudgment elems) m) ia ib = m ia ib
  | [], _, _ => rfl
  | jd :: rest, m, hjs => by
    have h0 := hjs jd (by simp)
    have hstep : applyJudgment elems m jd ia ib = m ia ib := by
      simp only [applyJudgment, updEntry]
      rw [if_neg (fun hc => h0 (Or.inr ⟨hc.2.symm, hc.1.symm⟩)),
        if_neg (fun hc => h0 (Or.inl ⟨hc.1.symm, hc.2.symm⟩))]
    have hrest := foldl_applyJudgment_untouched rest (applyJudgment elems m jd)
      (fun x hx => hjs x (by simp [hx]))
    calc (List.foldl (applyJudgment elems) m (jd :: rest)) ia ib
        = (List.foldl (applyJudgment elems) (applyJudgment elems m jd) rest) ia ib := rfl
      _ = applyJudgment elems m jd ia ib := hrest
      _ = m ia ib := hstep

/-! ## Statements and proofs of the claims -/

/-- C3: for every `lambda_max` and element count `n`, the Consistency
Checker computes `CI = (lambda_max - n) / (n - 1)` when `n ≥ 2` and
`CI = 0` when `n < 2`, and `CR = CI / RI(n)` with `CR` treated as 0
whenever `RI(n) = 0`; consequently `CR = 0` for every matrix with fewer
than 3 elements — in particular every successfully built `Compare` with
fewer than 3 elements reports `consistency_ratio = 0`. -/
theorem consistency_checker_formulas (lam : ℚ) (n : ℕ) :
    (2 ≤ n → (checkConsistency lam n).CI = (lam - n) / ((n : ℚ) - 1)) ∧
    (n < 2 → (checkConsistency lam n).CI = 0) ∧
    (RI n ≠ 0 →
      (checkConsistency lam n).CR = (checkConsistency lam n).CI / RI n) ∧
    (RI n = 0 → (checkConsistency lam n).CR = 0) ∧
    (n < 3 → (checkConsistency lam n).CR = 0) ∧
    (∀ (name : String) (js : List ((String × String) × ℚ)) (fuel : ℕ)
      (c : Compare), compareOfJudgments name js fuel = .ok c →
      c.elements.length < 3 → c.consistency_ratio = 0) := by
  have hRIzero : ∀ k : ℕ, k < 3 → RI k = 0 := by
    intro k hk
    match k, hk with
    | 0, _ => rfl
    | 1, _ => rfl
    | 2, _ => rfl
  refine ⟨?_, ?_, ?_, ?_, ?_, ?_⟩
  · intro h
    simp [checkConsistency, consistencyIndex, h]
  · intro h
    simp [checkConsistency, consistencyIndex, Nat.not_le.2 h]
  · intro h
    simp [checkConsistency, consistencyRatioOf, h]
  · intro h
    simp [checkConsistency, consistencyRatioOf, h]
  · intro h
    simp [checkConsistency, consistencyRatioOf, hRIzero n h]
  · intro name js fuel c hok hlt
    obtain ⟨-, hel, -, -, -, hcr⟩ := compareOfJudgments_ok hok
    rw [hcr, consistencyRatioOf, if_pos]
    rw [← hel]
    exact hRIzero _ hlt

/-- C4: the core comparison constructor itself accepts any judgment set
and only reports the consistency ratio; the calling build layer
(`_build_criteria`, `_build_alternatives`) accepts a judgment set with
`CR ≤ 0.10` unchanged and rejects one with `CR > 0.10` with an error
carrying the CR value, so the caller decides the policy. -/
theorem inconsistency_signalled_to_caller {cfg : AHPConfig} {fuel : ℕ}
    {c : Compare}
    (h : compareOfJudgments cfg.criteriaName cfg.criteriaComparisons fuel
      = .ok c) :
    (c.consistency_ratio ≤ 1 / 10 → buildCriteria cfg fuel = .ok c) ∧
    (1 / 10 < c.consistency_ratio →
      buildCriteria cfg fuel = .error (.inconsistentJudgments c.consistency_ratio)) ∧
    (∀ (cn : String) (js : List ((String × String) × ℚ))
      (rest : List (String × List ((String × String) × ℚ))) (cmp : Compare),
      compareOfJudgments ("Alternatives_for_" ++ cn) js fuel = .ok cmp →
      1 / 10 < cmp.consistency_ratio →
      buildAlternatives fuel ((cn, js) :: rest)
        = .error (.inconsistentJudgments cmp.consistency_ratio)) := by
  refine ⟨?_, ?_, ?_⟩
  · intro hle
    unfold buildCriteria
    rw [h]
    dsimp only
    rw [if_neg (not_lt.2 hle)]
  · intro hgt
    unfold buildCriteria
    rw [h]
    dsimp only
    rw [if_pos hgt]
  · intro cn js rest cmp hok hgt
    simp only [buildAlternatives]
    rw [hok]
    dsimp only
    rw [if_pos hgt]

/-- C6: every built `ComparisonMatrix` is reciprocal exactly —
`M[i][j] = 1 / M[j][i]` for every pair of indices — and every entry is
positive, by construction. -/
theorem matrix_reciprocal_positive {name : String}
    {js : List ((String × String) × ℚ)} {fuel : ℕ} {c : Compare}
    (h : compareOfJudgments name js fuel = .ok c) :
    ∀ i j, c.matrix i j = 1 / c.matrix j i ∧ 0 < c.matrix i j := by
  obtain ⟨-, -, hP, hR, -⟩ := compare_ok_props h
  intro i j
  exact ⟨eq_one_div_of_mul_eq_one_left (hR i j), hP i j⟩

/-- C7: the builder initialises every matrix entry (diagonal and
off-diagonal) to 1; a pair with no supplied judgment keeps the default
ratio 1 in the built matrix; and a supplied judgment `(A,B) → r`
overwrites `M[idx A][idx B]` with `r` and `M[idx B][idx A]` with `1/r`. -/
theorem matrix_default_one_and_overwrite :
    (∀ i j : ℕ, initMatrix i j = 1) ∧
    (∀ (elems : List String) (i j : ℕ), buildMatrixFn elems [] i j = 1) ∧
    (∀ (name : String) (js : List ((String × String) × ℚ)) (fuel : ℕ)
      (c : Compare), compareOfJudgments name js fuel = .ok c →
      ∀ a b : String, (∀ jd ∈ js, ¬ touchesPair a b jd) →
        c.matrix (c.elements.indexOf a) (c.elements.indexOf b) = 1) ∧
    (∀ (elems : List String) (js : List ((String × String) × ℚ))
      (a b : String) (r : ℚ), elems.indexOf a ≠ elems.indexOf b →
      buildMatrixFn elems (js ++ [((a, b), r)])
          (elems.indexOf a) (elems.indexOf b) = r ∧
        buildMatrixFn elems (js ++ [((a, b), r)])
          (elems.indexOf b) (elems.indexOf a) = 1 / r) := by
  refine ⟨fun _ _ => rfl, fun _ _ _ => rfl, ?_, ?_⟩
  · intro name js fuel c hok a b hab
    obtain ⟨hval, hel, -, hmat, -⟩ := compareOfJudgments_ok hok
    rw [hmat, hel]
    apply foldl_applyJudgment_untouched
    intro jd hjd hc
    apply hab jd hjd
    obtain ⟨hm1, hm2⟩ := mem_registerElements hjd
    rcases hc with ⟨h1, h2⟩ | ⟨h1, h2⟩
    · exact Or.inl ⟨eq_of_indexOf_eq_mem hm1 h1, eq_of_indexOf_eq_mem hm2 h2⟩
    · exact Or.inr ⟨eq_of_indexOf_eq_mem hm1 h1, eq_of_indexOf_eq_mem hm2 h2⟩
  · intro elems js a b r hne
    have hconcat : buildMatrixFn elems (js ++ [((a, b), r)])
        = applyJudgment elems (buildMatrixFn elems js) ((a, b), r) := by
      unfold buildMatrixFn
      rw [List.foldl_append]
      rfl
    rw [hconcat]
    constructor
    · simp only [applyJudgment, updEntry]
      rw [if_neg (fun hc => hne hc.1), if_pos ⟨trivial, trivial⟩]
    · simp only [applyJudgment, updEntry]
      rw [if_pos ⟨trivial, trivial⟩, one_div]

/-- C8: every `AHPHierarchy` whose constructor succeeds satisfies the
invariant that its criteria comparison and every per-criterion
alternatives comparison have `consistency_ratio ≤ 0.1`; the constructor
raises otherwise, so no over-threshold hierarchy object ever exists. -/
theorem constructed_hierarchy_consistent {cfg : AHPConfig} {fuel : ℕ}
    {hh : AHPHierarchy} (h : mkAHPHierarchy cfg fuel = .ok hh) :
    hh.criteria.consistency_ratio ≤ 1 / 10 ∧
      ∀ p ∈ hh.alternatives, p.2.consistency_ratio ≤ 1 / 10 := by
  obtain ⟨hcrit, halts, -⟩ := mkAHPHierarchy_ok h
  refine ⟨(buildCriteria_ok hcrit).2, ?_⟩
  intro p hp
  obtain ⟨-, -, hcr⟩ := buildAlternatives_ok halts p hp
  exact hcr

theorem resolveChildren_error_eq {alts : List (String × Compare)} :
    ∀ {cs : List String} {e : AHPError},
      resolveChildren alts cs = .error e → e = .hierarchyMismatch
  | [], _, h => by simp [resolveChildren] at h
  | c :: rest, e, h => by
    simp only [resolveChildren] at h
    split at h
    · injection h with h'
      exact h'.symm
    · split at h
      · next htail =>
        injection h with h'
        subst h'
        exact resolveChildren_error_eq htail
      · simp at h

theorem mem_children_of_lookup {alts : List (String × Compare)}
    {cs : List String} {children : List (String × Compare)}
    (hres : resolveChildren alts cs = .ok children)
    {c : String} {cmp : Compare} (hc : c ∈ cs)
    (hl : alts.lookup c = some cmp) : (c, cmp) ∈ children := by
  obtain ⟨hkeys, hlook⟩ := resolveChildren_ok hres
  rw [← hkeys] at hc
  obtain ⟨p, hp, hps⟩ := List.mem_map.1 hc
  obtain ⟨p1, p2⟩ := p
  simp only at hps
  subst hps
  have hlp := hlook (p1, p2) hp
  simp only at hlp
  rw [hl] at hlp
  have h2 : cmp = p2 := by injection hlp
  subst h2
  exact hp

theorem buildHierStructure_mismatch {crit : Compare}
    {alts : List (String × Compare)}
    (hbad : (∃ c ∈ crit.elements, alts.lookup c = none) ∨
      (∃ c₁ c₂ cmp₁ cmp₂, c₁ ∈ crit.elements ∧ c₂ ∈ crit.elements ∧
        alts.lookup c₁ = some cmp₁ ∧ alts.lookup c₂ = some cmp₂ ∧
        sameSet cmp₁.elements cmp₂.elements = false)) :
    buildHierStructure crit alts = .error .hierarchyMismatch := by
  unfold buildHierStructure
  split
  · next e hres =>
    rw [resolveChildren_error_eq hres]
  · next children hres =>
    rcases hbad with ⟨c, hc, hl⟩ | ⟨c₁, c₂, cmp₁, cmp₂, hc₁, hc₂, hl₁, hl₂, hss⟩
    · rw [resolveChildren_missing ⟨c, hc, hl⟩] at hres
      simp at hres
    · have hm₁ := mem_children_of_lookup hres hc₁ hl₁
      have hm₂ := mem_children_of_lookup hres hc₂ hl₂
      split
      · next hhead =>
        rw [List.head?_eq_none_iff.1 hhead] at hm₁
        cases hm₁
      · next p0 hhead =>
        have hnall : ¬(children.all
            (fun p => sameSet p.2.elements p0.2.elements) = true) := by
          intro hall
          have h₁ := List.all_eq_true.1 hall (c₁, cmp₁) hm₁
          have h₂ := List.all_eq_true.1 hall (c₂, cmp₂) hm₂
          have hiff₁ := sameSet_iff.1 h₁
          have hiff₂ := sameSet_iff.1 h₂
          have hc12 : sameSet cmp₁.elements cmp₂.elements = true :=
            sameSet_iff.2 (fun a => (hiff₁ a).trans (hiff₂ a).symm)
          rw [hss] at hc12
          cases hc12
        rw [if_neg hnall]

/-- C5: if every layer of the configuration builds, but the per-criterion
alternative sets are not identical across criteria, or a required
criterion's alternatives block is missing, the hierarchy build fails with
`HierarchyMismatch`; since the constructor aborts, the error is surfaced
before any global weights can be produced. -/
theorem hierarchy_mismatch_fatal {cfg : AHPConfig} {fuel : ℕ}
    {crit : Compare} {alts : List (String × Compare)}
    (hcrit : buildCriteria cfg fuel = .ok crit)
    (halts : buildAlternatives fuel cfg.alternatives = .ok alts)
    (hbad : (∃ c ∈ crit.elements, alts.lookup c = none) ∨
      (∃ c₁ c₂ cmp₁ cmp₂, c₁ ∈ crit.elements ∧ c₂ ∈ crit.elements ∧
        alts.lookup c₁ = some cmp₁ ∧ alts.lookup c₂ = some cmp₂ ∧
        sameSet cmp₁.elements cmp₂.elements = false)) :
    mkAHPHierarchy cfg fuel = .error .hierarchyMismatch ∧
      ∀ hh : AHPHierarchy, mkAHPHierarchy cfg fuel ≠ .ok hh := by
  have hmk : mkAHPHierarchy cfg fuel = .error .hierarchyMismatch := by
    unfold mkAHPHierarchy
    rw [hcrit]
    dsimp only
    rw [halts]
    dsimp only
    rw [buildHierStructure_mismatch hbad]
  refine ⟨hmk, ?_⟩
  intro hh hcontra
  rw [hmk] at hcontra
  cases hcontra

/-- C1: for every configuration the constructor accepts, every
PriorityVector the engine produces — the criteria-level vector, each
per-criterion alternatives-level vector, and the global vector returned
by `get_final_weights` — maps each element to a non-negative weight and
its weights sum to 1 within `1e-6` (in the rational embedding, exactly). -/
theorem priority_vectors_nonneg_sum_one {cfg : AHPConfig} {fuel : ℕ}
    {hh : AHPHierarchy} (h : mkAHPHierarchy cfg fuel = .ok hh) :
    (nonnegPV hh.criteria.priorityVector ∧
      sumNearOnePV hh.criteria.priorityVector) ∧
    (∀ p ∈ hh.alternatives,
      nonnegPV p.2.priorityVector ∧ sumNearOnePV p.2.priorityVector) ∧
    (nonnegPV hh.get_final_weights ∧ sumNearOnePV hh.get_final_weights) := by
  obtain ⟨hcrit, halts, hroot⟩ := mkAHPHierarchy_ok h
  obtain ⟨hcc, -⟩ := buildCriteria_ok hcrit
  obtain ⟨hcnd, hclen, -, -, -, hckeys, hcpos, hcsum⟩ := compare_ok_props hcc
  obtain ⟨hc1, hkeys, hne, hmem, hsame⟩ := mkAHP_root_props h
  have haltprops : ∀ p ∈ hh.root.children,
      p.2.priorityVector.map Prod.fst = p.2.elements ∧
        (p.2.priorityVector.map Prod.snd).sum = 1 ∧
        p.2.elements.Nodup ∧
        sameSet p.2.elements (altNamesOf hh.root) = true := by
    intro p hp
    obtain ⟨js, hok, -⟩ := buildAlternatives_ok halts p (hmem p hp)
    obtain ⟨hnd', -, -, -, -, hkeys', -, hsum'⟩ := compare_ok_props hok
    exact ⟨hkeys', hsum', hnd', hsame p hp⟩
  refine ⟨⟨fun p hp => le_of_lt (hcpos p hp), sumNearOne_of_eq hcsum⟩,
    ?_, ?_, ?_⟩
  · intro p hp
    obtain ⟨js, hok, -⟩ := buildAlternatives_ok halts p hp
    obtain ⟨-, -, -, -, -, -, hpos', hsum'⟩ := compare_ok_props hok
    exact ⟨fun q hq => le_of_lt (hpos' q hq), sumNearOne_of_eq hsum'⟩
  · unfold AHPHierarchy.get_final_weights
    apply global_nonneg
    · rw [hc1]
      exact fun p hp => le_of_lt (hcpos p hp)
    · intro p hp q hq
      obtain ⟨js, hok, -⟩ := buildAlternatives_ok halts p (hmem p hp)
      obtain ⟨-, -, -, -, -, -, hpos', -⟩ := compare_ok_props hok
      exact le_of_lt (hpos' q hq)
  · unfold AHPHierarchy.get_final_weights
    apply sumNearOne_of_eq
    apply global_sum_one
    · rw [hc1]
      exact hckeys
    · rw [hc1]
      exact hcsum
    · rw [hc1]
      exact hcnd
    · rw [hc1]
      exact hkeys
    · exact hne
    · exact haltprops

/-- C2: the synthesized global weight of each alternative equals the
weighted sum `global(a) = Σ_c w_c(c) * w_a(a|c)`; on the spec's example
(criteria `{X:0.6, Y:0.4}`, alternatives `{A:0.7,B:0.3}` under X and
`{A:0.2,B:0.8}` under Y) the global vector is `A = 0.5, B = 0.5`; and the
synthesized vector sums to 1 whenever the inputs are coherent priority
vectors over one common alternative set. -/
theorem synthesis_weighted_sum :
    (∀ (h : Hierarchy) (a : String), a ∈ altNamesOf h →
      lookupW h.get_priority_vector a
        = (h.children.map (fun p => lookupW h.criteria.priorityVector p.1 *
            lookupW p.2.priorityVector a)).sum) ∧
    hierEx.get_priority_vector = [("A", 1 / 2), ("B", 1 / 2)] ∧
    (∀ h : Hierarchy,
      h.criteria.priorityVector.map Prod.fst = h.criteria.elements →
      (h.criteria.priorityVector.map Prod.snd).sum = 1 →
      h.criteria.elements.Nodup →
      h.children.map Prod.fst = h.criteria.elements →
      h.children ≠ [] →
      (∀ p ∈ h.children,
        p.2.priorityVector.map Prod.fst = p.2.elements ∧
          (p.2.priorityVector.map Prod.snd).sum = 1 ∧
          p.2.elements.Nodup ∧
          sameSet p.2.elements (altNamesOf h) = true) →
      (h.get_priority_vector.map Prod.snd).sum = 1) := by
  refine ⟨?_, ?_, ?_⟩
  · intro h a ha
    unfold Hierarchy.get_priority_vector
    exact lookupW_map_pair _ ha
  · with_unfolding_all decide
  · intro h h1 h2 h3 h4 h5 h6
    exact global_sum_one h1 h2 h3 h4 h5 h6

/-! ## Data-frame lemmas -/

/-- C9 counterexample: on a frame with no missing values in the feature
or target columns the call succeeds and returns the caller's frame with
identical content, refuting the universal reading of "the input
DataFrame is not left unchanged by the call". -/
theorem train_no_missing_unchanged :
    train_predictive_model dfC9 [("f")] ("t") = .ok dfC9 := by
  with_unfolding_all rfl

/-- C9 amended: `train_predictive_model` drops, in place, every row with
a missing value in any feature column or in the target column — after a
successful call the caller's frame holds exactly the complete rows — but
the frame content is unchanged whenever no row has such a missing
value. -/
theorem train_dropna_frame_effect {df : DataFrame} {features : List String}
    {target : String} {df' : DataFrame}
    (h : train_predictive_model df features target = .ok df') :
    df'.columns = df.columns ∧
    df'.rows = df.rows.filter (rowComplete features target) ∧
    (df.rows.all (rowComplete features target) → df' = df) := by
  simp only [train_predictive_model] at h
  split_ifs at h with h1 h2 h3 h4
  all_goals try simp at h
  subst h
  refine ⟨rfl, rfl, ?_⟩
  intro hall
  have hfil : df.rows.filter (rowComplete features target) = df.rows := by
    rw [List.filter_eq_self]
    intro a ha
    exact List.all_eq_true.1 hall a ha
  cases df with
  | mk cols rows =>
    simp only at hfil ⊢
    rw [hfil]

theorem ffillFrom_length : ∀ (l : Column) (carry : Option ℚ),
    (ffillFrom carry l).length = l.length
  | [], _ => rfl
  | none :: xs, carry => by
    simp only [ffillFrom, List.length_cons, ffillFrom_length xs carry]
  | some v :: xs, _ => by
    simp only [ffillFrom, List.length_cons, ffillFrom_length xs (some v)]

theorem bfill_length : ∀ l : Column, (bfill l).length = l.length
  | [] => rfl
  | some v :: xs => by simp only [bfill, List.length_cons, bfill_length xs]
  | none :: xs => by simp only [bfill, List.length_cons, bfill_length xs]

theorem headD_isSome {l : Column} (hne : l ≠ [])
    (h : ∀ x ∈ l, x.isSome = true) : (l.headD none).isSome = true := by
  cases l with
  | nil => exact absurd rfl hne
  | cons a t => exact h a (by simp)

theorem bfill_ffillFrom_all_some :
    ∀ (l : Column) (carry : Option ℚ),
      (carry.isSome = true ∨ l.any (fun x => x.isSome) = true) →
      ∀ x ∈ bfill (ffillFrom carry l), x.isSome = true
  | [], _, _ => by simp [ffillFrom, bfill]
  | none :: xs, carry, hyp => by
    cases carry with
    | some v =>
      intro x hx
      simp only [ffillFrom, bfill] at hx
      rcases List.mem_cons.1 hx with rfl | hx'
      · rfl
      · exact bfill_ffillFrom_all_some xs (some v) (Or.inl rfl) x hx'
    | none =>
      have hxs : xs.any (fun x => x.isSome) = true := by
        rcases hyp with hc | ha
        · simp at hc
        · simpa using ha
      have hxsne : xs ≠ [] := by
        intro hnil
        rw [hnil] at hxs
        simp at hxs
      intro x hx
      simp only [ffillFrom, bfill] at hx
      rcases List.mem_cons.1 hx with rfl | hx'
      · apply headD_isSome
        · intro hnil
          have hlen := congrArg List.length hnil
          rw [bfill_length, ffillFrom_length] at hlen
          simp at hlen
          exact hxsne hlen
        · exact bfill_ffillFrom_all_some xs none (Or.inr hxs)
      · exact bfill_ffillFrom_all_some xs none (Or.inr hxs) x hx'
  | some v :: xs, carry, _ => by
    intro x hx
    simp only [ffillFrom, bfill] at hx
    rcases List.mem_cons.1 hx with rfl | hx'
    · rfl
    · exact bfill_ffillFrom_all_some xs (some v) (Or.inl rfl) x hx'

theorem fill_all_some {l : Column}
    (h : l.any (fun x => x.isSome) = true) :
    ∀ x ∈ bfill (ffill l), x.isSome = true :=
  bfill_ffillFrom_all_some l none (Or.inr h)

theorem fill_any_some {l : Column}
    (h : l.any (fun x => x.isSome) = true) :
    (bfill (ffill l)).any (fun x => x.isSome) = true := by
  have hlen : (bfill (ffill l)).length = l.length := by
    rw [bfill_length]
    exact ffillFrom_length l none
  have hne : l ≠ [] := by
    intro hnil
    rw [hnil] at h
    simp at h
  rw [List.any_eq_true]
  cases hb : bfill (ffill l) with
  | nil =>
    rw [hb] at hlen
    simp at hlen
    exact absurd (List.length_eq_zero.1 hlen.symm) hne
  | cons a t =>
    refine ⟨a, by simp, ?_⟩
    apply fill_all_some h
    rw [hb]
    simp

theorem lookup_setCol_self : ∀ (df : ColFrame) (c : String) (l : Column),
    (df.lookup c).isSome = true → (setCol df c l).lookup c = some l
  | [], c, l, h => by simp [List.lookup] at h
  | (k, v) :: t, c, l, h => by
    by_cases hk : c = k
    · subst hk
      dsimp only [setCol, List.map]
      rw [if_pos rfl]
      simp [List.lookup]
    · have hbeq : (c == k) = false := beq_eq_false_iff_ne.2 hk
      dsimp only [setCol, List.map]
      rw [if_neg (fun he => hk he.symm)]
      simp only [List.lookup, hbeq]
      have ht : (t.lookup c).isSome = true := by
        simpa [List.lookup, hbeq] using h
      exact lookup_setCol_self t c l ht

theorem lookup_setCol_ne : ∀ (df : ColFrame) {c c' : String} (l : Column),
    c' ≠ c → (setCol df c l).lookup c' = df.lookup c'
  | [], _, _, _, _ => rfl
  | (k, v) :: t, c, c', l, hne => by
    by_cases hk : k = c
    · subst hk
      have hbeq : (c' == k) = false := beq_eq_false_iff_ne.2 hne
      dsimp only [setCol, List.map]
      rw [if_pos rfl]
      simp only [List.lookup, hbeq]
      exact lookup_setCol_ne t l hne
    · dsimp only [setCol, List.map]
      rw [if_neg hk]
      by_cases hck : c' = k
      · subst hck
        simp [List.lookup]
      · have hbeq : (c' == k) = false := beq_eq_false_iff_ne.2 hck
        simp only [List.lookup, hbeq]
        exact lookup_setCol_ne t l hne

theorem fillColumns_missing :
    ∀ (cols : List String) (df : ColFrame),
      (∃ c ∈ cols, df.lookup c = none) →
      fillColumns df cols = .error .columnNotFound
  | [], _, h => by
    obtain ⟨c, hc, -⟩ := h
    cases hc
  | c0 :: rest, df, h => by
    simp only [fillColumns]
    cases hl : df.lookup c0 with
    | none => rfl
    | some l =>
      obtain ⟨c, hc, hcl⟩ := h
      have hcc0 : c ≠ c0 := by
        intro he
        rw [he, hl] at hcl
        cases hcl
      have hcrest : c ∈ rest := by
        rcases List.mem_cons.1 hc with rfl | h'
        · exact absurd rfl hcc0
        · exact h'
      have hstill : (setCol df c0 (bfill (ffill l))).lookup c = none := by
        rw [lookup_setCol_ne df _ hcc0, hcl]
      exact fillColumns_missing rest _ ⟨c, hcrest, hstill⟩

theorem fillColumns_ok :
    ∀ (cols : List String) (df df' : ColFrame),
      fillColumns df cols = .ok df' →
      (∀ c, c ∉ cols → df'.lookup c = df.lookup c) ∧
      (∀ c ∈ cols, ∃ l', df'.lookup c = some l' ∧
        ∀ l₀, df.lookup c = some l₀ →
          l₀.any (fun x => x.isSome) = true →
          ∀ x ∈ l', x.isSome = true)
  | [], df, df', h => by
    simp only [fillColumns] at h
    injection h with h'
    subst h'
    exact ⟨fun c _ => rfl, fun c hc => absurd hc (List.not_mem_nil c)⟩
  | c0 :: rest, df, df', h => by
    simp only [fillColumns] at h
    split at h
    · simp at h
    · next l hl =>
      obtain ⟨ih1, ih2⟩ :=
        fillColumns_ok rest (setCol df c0 (bfill (ffill l))) df' h
      constructor
      · intro c hc
        have hc0 : c ≠ c0 := fun he => hc (he ▸ List.mem_cons_self _ _)
        have hcrest : c ∉ rest := fun h' => hc (List.mem_cons_of_mem _ h')
        rw [ih1 c hcrest, lookup_setCol_ne df _ hc0]
      · intro c hc
        by_cases hcr : c ∈ rest
        · obtain ⟨l', hl', himp⟩ := ih2 c hcr
          refine ⟨l', hl', ?_⟩
          intro l₀ hl₀ hany
          by_cases hc0 : c = c0
          · subst hc0
            rw [hl] at hl₀
            have he : l = l₀ := by injection hl₀
            subst he
            have hset : (setCol df c (bfill (ffill l))).lookup c
                = some (bfill (ffill l)) :=
              lookup_setCol_self df c _ (by rw [hl]; rfl)
            exact himp _ hset (fill_any_some hany)
          · have hset : (setCol df c0 (bfill (ffill l))).lookup c
                = df.lookup c :=
              lookup_setCol_ne df _ hc0
            exact himp l₀ (by rw [hset, hl₀]) hany
        · have hc0 : c = c0 := by
            rcases List.mem_cons.1 hc with rfl | h'
            · rfl
            · exact absurd h' hcr
          subst hc0
          have hset : (setCol df c (bfill (ffill l))).lookup c
              = some (bfill (ffill l)) :=
            lookup_setCol_self df c _ (by rw [hl]; rfl)
          refine ⟨bfill (ffill l), ?_, ?_⟩
          · rw [ih1 c hcr, hset]
          · intro l₀ hl₀ hany
            rw [hl] at hl₀
            have he : l = l₀ := by injection hl₀
            subst he
            exact fill_all_some hany

/-- C10: with a non-empty `fillna_columns` list, a listed column absent
from the frame makes `load_data` raise `ValueError`; on success every
listed column has been forward- and backward-filled, so it contains no
missing value whenever it had at least one non-missing value, and every
column not listed is returned unchanged. -/
theorem load_data_fill_behaviour (df : ColFrame) (cols : List String)
    (hne : cols ≠ []) :
    ((∃ c ∈ cols, df.lookup c = none) →
      load_data df (some cols) = .error .columnNotFound) ∧
    (∀ df', load_data df (some cols) = .ok df' →
      (∀ c ∈ cols, ∃ l', df'.lookup c = some l' ∧
        ∀ l₀, df.lookup c = some l₀ →
          l₀.any (fun x => x.isSome) = true →
          ∀ x ∈ l', x.isSome = true) ∧
      (∀ c, c ∉ cols → df'.lookup c = df.lookup c)) := by
  obtain ⟨c0, rest, rfl⟩ : ∃ c0 rest, cols = c0 :: rest := by
    cases cols with
    | nil => exact absurd rfl hne
    | cons a t => exact ⟨a, t, rfl⟩
  have hload : load_data df (some (c0 :: rest))
      = fillColumns df (c0 :: rest) := rfl
  constructor
  · intro hbad
    rw [hload]
    exact fillColumns_missing _ df hbad
  · intro df' hok
    rw [hload] at hok
    obtain ⟨h1, h2⟩ := fillColumns_ok _ df df' hok
    exact ⟨h2, h1⟩

/-! ## Witnesses at concrete inputs -/

/-- Witness for C1: the hierarchy built from `cfgEx` satisfies all three
vector invariants. -/
theorem priority_vectors_nonneg_sum_one_witness :
    (nonnegPV hEx.criteria.priorityVector ∧
      sumNearOnePV hEx.criteria.priorityVector) ∧
    (∀ p ∈ hEx.alternatives,
      nonnegPV p.2.priorityVector ∧ sumNearOnePV p.2.priorityVector) ∧
    (nonnegPV hEx.get_final_weights ∧ sumNearOnePV hEx.get_final_weights) :=
  @priority_vectors_nonneg_sum_one cfgEx 0 hEx (by with_unfolding_all rfl)

/-- Witness for C2: the spec's example hierarchy satisfies the pointwise
formula at A, and its global vector sums to 1. -/
theorem synthesis_weighted_sum_witness :
    lookupW hierEx.get_priority_vector ("A")
      = (hierEx.children.map
          (fun p => lookupW hierEx.criteria.priorityVector p.1 *
            lookupW p.2.priorityVector ("A"))).sum ∧
    (hierEx.get_priority_vector.map Prod.snd).sum = 1 :=
  ⟨synthesis_weighted_sum.1 hierEx ("A") (by with_unfolding_all decide),
   synthesis_weighted_sum.2.2 hierEx (by with_unfolding_all decide)
     (by with_unfolding_all decide) (by with_unfolding_all decide)
     (by with_unfolding_all decide)
     (by with_unfolding_all exact List.cons_ne_nil _ _)
     (by with_unfolding_all decide)⟩

/-- Witness for C3: the consistency formulas evaluated at
`lambda_max = 9/4`, `n = 2`. -/
theorem consistency_checker_witness :
    (checkConsistency (9 / 4) 2).CI
      = ((9 : ℚ) / 4 - ((2 : ℕ) : ℚ)) / (((2 : ℕ) : ℚ) - 1) ∧
    (checkConsistency (9 / 4) 2).CR = 0 :=
  ⟨(consistency_checker_formulas (9 / 4) 2).1 (by decide),
   (consistency_checker_formulas (9 / 4) 2).2.2.2.2.1 (by decide)⟩

/-- Witness for C4: the criteria layer of `cfgEx` has `CR ≤ 0.1` and is
accepted unchanged by `_build_criteria`. -/
theorem inconsistency_signalled_witness :
    buildCriteria cfgEx 0 = .ok critCmpEx :=
  (@inconsistency_signalled_to_caller cfgEx 0 critCmpEx
      (by with_unfolding_all rfl)).1 (by with_unfolding_all decide)

/-- Witness for C5: `cfgBad` has mismatched alternative sets and its
hierarchy build fails with `HierarchyMismatch`. -/
theorem hierarchy_mismatch_witness :
    mkAHPHierarchy cfgBad 0 = .error .hierarchyMismatch :=
  (@hierarchy_mismatch_fatal cfgBad 0 critBad altsBad
      (by with_unfolding_all rfl) (by with_unfolding_all rfl)
      (Or.inr ⟨("X"), ("Y"), cmpBadX, cmpBadY,
        by with_unfolding_all decide, by with_unfolding_all decide,
        by with_unfolding_all rfl, by with_unfolding_all rfl,
        by with_unfolding_all decide⟩)).1

/-- Witness for C6: reciprocity and positivity of the built matrix of
`cmpEx` at the indices of its judged pair. -/
theorem matrix_reciprocal_witness :
    cmpEx.matrix 0 1 = 1 / cmpEx.matrix 1 0 ∧ 0 < cmpEx.matrix 0 1 :=
  @matrix_reciprocal_positive ("c") [(("X", "Y"), 2)] 1 cmpEx
    (by with_unfolding_all rfl) 0 1

/-- Witness for C7: the unsupplied pair `{X,Z}` keeps ratio 1 in `cmpEx`,
and appending the judgment `(X,Y) → 5` overwrites the two mirror
entries. -/
theorem matrix_default_overwrite_witness :
    cmpEx.matrix (cmpEx.elements.indexOf ("X"))
        (cmpEx.elements.indexOf ("Z")) = 1 ∧
    (buildMatrixFn ["X", "Y"] ([] ++ [(("X", "Y"), 5)])
        (["X", "Y"].indexOf ("X")) (["X", "Y"].indexOf ("Y")) = 5 ∧
      buildMatrixFn ["X", "Y"] ([] ++ [(("X", "Y"), 5)])
        (["X", "Y"].indexOf ("Y")) (["X", "Y"].indexOf ("X")) = 1 / 5) :=
  ⟨matrix_default_one_and_overwrite.2.2.1 ("c") [(("X", "Y"), 2)] 1 cmpEx
      (by with_unfolding_all rfl) ("X") ("Z") (by decide),
   matrix_default_one_and_overwrite.2.2.2 ["X", "Y"] [] ("X") ("Y") 5
      (by decide)⟩

/-- Witness for C8: the hierarchy built from `cfgEx` satisfies the
consistency invariant. -/
theorem constructed_hierarchy_consistent_witness :
    hEx.criteria.consistency_ratio ≤ 1 / 10 ∧
      ∀ p ∈ hEx.alternatives, p.2.consistency_ratio ≤ 1 / 10 :=
  @constructed_hierarchy_consistent cfgEx 0 hEx (by with_unfolding_all rfl)

/-- Witness for the amended C9: on `dfC9b` the call drops the incomplete
row in place. -/
theorem train_dropna_witness :
    dfC9b'.columns = dfC9b.columns ∧
    dfC9b'.rows = dfC9b.rows.filter (rowComplete [("f")] ("t")) ∧
    (dfC9b.rows.all (rowComplete [("f")] ("t")) → dfC9b' = dfC9b) :=
  @train_dropna_frame_effect dfC9b [("f")] ("t") dfC9b'
    (by with_unfolding_all rfl)

/-- Witness for C10: a listed absent column makes `load_data` fail, and a
column not listed is returned unchanged. -/
theorem load_data_fill_witness :
    load_data dfC10 (some [("a"), ("z")]) = .error .columnNotFound ∧
    dfC10'.lookup ("b") = dfC10.lookup ("b") :=
  ⟨(load_data_fill_behaviour dfC10 [("a"), ("z")] (by decide)).1
      ⟨("z"), by decide, by with_unfolding_all rfl⟩,
   ((load_data_fill_behaviour dfC10 [("a")] (by decide)).2 dfC10'
      (by with_unfolding_all rfl)).2 ("b") (by decide)⟩

end KPI
